import Mathlib

/-!
Shallow embedding of the VQE-Simulation core (`vqe_h2.py`, class `H2VQE`)
over the reals, together with theorems settling the specification claims.

The Python instance state (`bond_length`, `history`, `optimal_energy`,
`optimal_params`, `iteration_count`) is modelled as an explicit record that
is threaded through the stateful methods.  The third-party minimizer
(`scipy.optimize.minimize`) is a black box: `optimize` is modelled as
receiving the sequence of points at which the minimizer invokes the progress
callback, plus the best value/point the minimizer reports.
-/

namespace VQE

/-- The dictionary of Hamiltonian coefficients with keys II, ZZ, ZI, IZ. -/
structure HamiltonianCoefficients where
  II : ℝ
  ZZ : ℝ
  ZI : ℝ
  IZ : ℝ

/-- Embedding of `H2VQE._calculate_hamiltonian_coefficients` (vqe_h2.py:65-80):
`h_ii = -1.0523732`, `h_zz = 0.39793742 * exp(-0.1*(r-0.735)**2)`,
`h_zi = -0.39793742 * 0.5 * exp(-0.05*(r-0.735)**2)`, with `IZ` set to `h_zi`
as well. -/
noncomputable def calculate_hamiltonian_coefficients (bond_length : ℝ) :
    HamiltonianCoefficients :=
  let r := bond_length
  let h_ii : ℝ := -1.0523732
  let h_zz : ℝ := 0.39793742 * Real.exp (-0.1 * (r - 0.735) ^ 2)
  let h_zi : ℝ := -0.39793742 * 0.5 * Real.exp (-0.05 * (r - 0.735) ^ 2)
  { II := h_ii, ZZ := h_zz, ZI := h_zi, IZ := h_zi }

/-- Embedding of `H2VQE.get_h2_hamiltonian_simplified` (vqe_h2.py:47-63): it
repackages the four coefficients unchanged. -/
noncomputable def get_h2_hamiltonian_simplified (bond_length : ℝ) :
    HamiltonianCoefficients :=
  let h_coeff := calculate_hamiltonian_coefficients bond_length
  { II := h_coeff.II, ZZ := h_coeff.ZZ, ZI := h_coeff.ZI, IZ := h_coeff.IZ }

/-- `np.sum(params * np.arange(k, k + len(params)))`: the sum of
`params[i] * (k + i)`. `measure_expectation_value` uses it with `k = 1`. -/
def weighted_index_sum : List ℝ → ℕ → ℝ
  | [], _ => 0
  | x :: xs, k => x * (k : ℝ) + weighted_index_sum xs (k + 1)

/-- Body of `H2VQE.measure_expectation_value` (vqe_h2.py:124-159) after the
coefficient dictionary `h_dict` has been fetched:
`param_sum = np.sum(params)`;
`param_prod = np.prod(params[:4]) if len(params) >= 4 else 0.1`;
`zz_exp = 0.3*cos(param_prod)*sin(param_sum)`;
`zi_exp = 0.2*cos(params[0]) if len(params) > 0 else 0.1`;
`iz_exp = 0.2*sin(params[1]) if len(params) > 1 else 0.1`;
`energy = II + ZZ*zz_exp + ZI*zi_exp + IZ*iz_exp + 0.001*sin(Σ params[i]*(i+1))`. -/
noncomputable def measure_expectation_value_with (h_dict : HamiltonianCoefficients)
    (params : List ℝ) : ℝ :=
  let energy := h_dict.II
  let param_sum := params.sum
  let param_prod := if 4 ≤ params.length then (params.take 4).prod else 0.1
  let zz_exp := 0.3 * Real.cos param_prod * Real.sin param_sum
  let zi_exp := if 0 < params.length then 0.2 * Real.cos (params.getD 0 0) else 0.1
  let iz_exp := if 1 < params.length then 0.2 * Real.sin (params.getD 1 0) else 0.1
  let energy := energy + h_dict.ZZ * zz_exp
  let energy := energy + h_dict.ZI * zi_exp
  let energy := energy + h_dict.IZ * iz_exp
  let noise := 0.001 * Real.sin (weighted_index_sum params 1)
  energy + noise

/-- `H2VQE.measure_expectation_value` (vqe_h2.py:124-159): fetches
`h_dict = self.get_h2_hamiltonian_simplified()` from the instance's bond
length and evaluates the analytical energy formula. -/
noncomputable def measure_expectation_value (bond_length : ℝ) (params : List ℝ) : ℝ :=
  measure_expectation_value_with (get_h2_hamiltonian_simplified bond_length) params

/-- The `self.history` dictionary of `H2VQE` (vqe_h2.py:38-42). -/
structure History where
  energies : List ℝ
  params : List (List ℝ)
  iterations : List ℕ

/-- The mutable instance state of `H2VQE` (vqe_h2.py:28-45). -/
structure H2VQEState where
  bond_length : ℝ
  history : History
  optimal_energy : Option ℝ
  optimal_params : Option (List ℝ)
  iteration_count : ℕ

/-- `H2VQE.__init__` (vqe_h2.py:28-45): empty history, no optimum yet,
iteration count 0. -/
def H2VQE_init (bond_length : ℝ) : H2VQEState :=
  { bond_length := bond_length
    history := { energies := [], params := [], iterations := [] }
    optimal_energy := none
    optimal_params := none
    iteration_count := 0 }

/-- `H2VQE.callback` (vqe_h2.py:161-170): increments `iteration_count`,
re-evaluates the energy at `xk`, and appends energy, a copy of `xk`, and the
new count to the three history lists. -/
noncomputable def callback (st : H2VQEState) (xk : List ℝ) : H2VQEState :=
  let ic := st.iteration_count + 1
  let energy := measure_expectation_value st.bond_length xk
  { st with
    iteration_count := ic
    history :=
      { energies := st.history.energies ++ [energy]
        params := st.history.params ++ [xk]
        iterations := st.history.iterations ++ [ic] } }

/-- `H2VQE.optimize` (vqe_h2.py:172-204) with `scipy.optimize.minimize` as a
black box: the minimizer invokes `callback` once per accepted iteration, at
the points `callback_points`, and reports `result_fun` / `result_x`, which
`optimize` stores in `optimal_energy` / `optimal_params`.  `maxiter` is
forwarded to the minimizer's options without validation and does not touch
the instance state. -/
noncomputable def optimize (st : H2VQEState) (callback_points : List (List ℝ))
    (result_fun : ℝ) (result_x : List ℝ) : H2VQEState :=
  let st1 := callback_points.foldl callback st
  { st1 with optimal_energy := some result_fun, optimal_params := some result_x }

/-- The `for r in bond_lengths` loop of `H2VQE.get_energy_curve`
(vqe_h2.py:216-223): sets `self.bond_length = r`, evaluates the energy at
`np.ones(8) * 0.5`, appends it, and continues with the mutated state. -/
noncomputable def energy_curve_loop : H2VQEState → List ℝ → List ℝ × H2VQEState
  | st, [] => ([], st)
  | st, r :: rest =>
    let st1 := { st with bond_length := r }
    let energy := measure_expectation_value st1.bond_length (List.replicate 8 0.5)
    let res := energy_curve_loop st1 rest
    (energy :: res.1, res.2)

/-- `H2VQE.get_energy_curve` (vqe_h2.py:206-225): returns
`(bond_lengths, energies)` and the mutated instance state. -/
noncomputable def get_energy_curve (st : H2VQEState) (bond_lengths : List ℝ) :
    (List ℝ × List ℝ) × H2VQEState :=
  let (energies, st1) := energy_curve_loop st bond_lengths
  ((bond_lengths, energies), st1)

/-- For a list of length at least 4, `np.prod(params[:4])` is the product of
the first four entries. -/
theorem take_four_prod (a b c d : ℝ) (t : List ℝ) :
    ((a :: b :: c :: d :: t).take 4).prod = a * b * c * d := by
  show (a * (b * (c * (d * 1)))) = a * b * c * d
  ring

/-- C1: for every coefficient record `c` and parameter list `p`,
`measure_expectation_value` returns exactly
`c.II + c.ZZ*(0.3*cos(q)*sin(s)) + c.ZI*zi + c.IZ*iz + 0.001*sin(Σ p[i]*(i+1))`
where `s = sum(p)`, `q = p[0]*p[1]*p[2]*p[3]` if `len(p) ≥ 4` else `0.1`,
`zi = 0.2*cos(p[0])` if `len(p) > 0` else `0.1`, and `iz = 0.2*sin(p[1])` if
`len(p) > 1` else `0.1`. -/
theorem evaluate_closed_form (c : HamiltonianCoefficients) (p : List ℝ) :
    measure_expectation_value_with c p =
      c.II
      + c.ZZ * (0.3 * Real.cos
          (if 4 ≤ p.length then p.getD 0 0 * p.getD 1 0 * p.getD 2 0 * p.getD 3 0 else 0.1)
          * Real.sin p.sum)
      + c.ZI * (if 0 < p.length then 0.2 * Real.cos (p.getD 0 0) else 0.1)
      + c.IZ * (if 1 < p.length then 0.2 * Real.sin (p.getD 1 0) else 0.1)
      + 0.001 * Real.sin (weighted_index_sum p 1) := by
  unfold measure_expectation_value_with
  by_cases h4 : 4 ≤ p.length
  · obtain ⟨a, b, c', d, t, rfl⟩ : ∃ a b c' d t, p = a :: b :: c' :: d :: t := by
      rcases p with _ | ⟨a, _ | ⟨b, _ | ⟨c', _ | ⟨d, t⟩⟩⟩⟩ <;> simp at h4
      exact ⟨a, b, c', d, t, rfl⟩
    rw [if_pos h4, if_pos h4, take_four_prod]
    simp [List.getD]
  · rw [if_neg h4, if_neg h4]

/-- C6: on a single-element vector `[x]`, the evaluation uses
`zi_exp = 0.2*cos(x)` and the fallbacks `iz_exp = 0.1` and
`param_prod = 0.1`, yielding
`c.II + c.ZZ*0.3*cos(0.1)*sin(x) + c.ZI*0.2*cos(x) + c.IZ*0.1 + 0.001*sin(x)`. -/
theorem evaluate_singleton_formula (c : HamiltonianCoefficients) (x : ℝ) :
    measure_expectation_value_with c [x] =
      c.II + c.ZZ * (0.3 * Real.cos 0.1 * Real.sin x)
        + c.ZI * (0.2 * Real.cos x) + c.IZ * 0.1 + 0.001 * Real.sin x := by
  unfold measure_expectation_value_with
  norm_num [weighted_index_sum, List.getD]

/-- The energy at bond length 0.735 and the all-zeros 8-vector: every
trigonometric argument is 0, so the ZZ, IZ and noise terms vanish and the ZI
term contributes `-0.19896871 * 0.2`. -/
theorem evaluate_zero_vec_value :
    measure_expectation_value 0.735 [0, 0, 0, 0, 0, 0, 0, 0] = -1.092166942 := by
  unfold measure_expectation_value
  show measure_expectation_value_with (calculate_hamiltonian_coefficients 0.735) _ = _
  unfold measure_expectation_value_with calculate_hamiltonian_coefficients
  norm_num [weighted_index_sum, List.getD, List.sum_cons, List.prod_cons]

/-- C2 counterexample: the spec's claimed value -1.0923464 for
`evaluate([0]*8)` at bond length 0.735 is an arithmetic slip; the code
returns -1.092166942. -/
theorem evaluate_zero_vec_ne_spec_value :
    measure_expectation_value 0.735 [0, 0, 0, 0, 0, 0, 0, 0] ≠ -1.0923464 := by
  rw [evaluate_zero_vec_value]
  norm_num

/-- C2 amended: `evaluate([0]*8)` at bond length 0.735 returns exactly
`-1.0523732 + (-0.19896871) * 0.2 = -1.092166942`. -/
theorem evaluate_zero_vec_amended :
    measure_expectation_value 0.735 [0, 0, 0, 0, 0, 0, 0, 0] = -1.092166942 :=
  evaluate_zero_vec_value

/-- C9 counterexample: evaluating with the empty parameter vector raises no
error at all: every index access is guarded by a length check, so the call
returns the fallback-branch value, here concretely at the equilibrium
coefficients. -/
theorem evaluate_empty_returns_value :
    measure_expectation_value_with
      { II := -1.0523732, ZZ := 0.39793742, ZI := -0.19896871, IZ := -0.19896871 } [] =
      -1.092166942 := by
  unfold measure_expectation_value_with
  norm_num [weighted_index_sum]

/-- C9 amended: the code performs no input validation: on the empty vector
every fallback branch fires and the result is `c.II + 0.1*c.ZI + 0.1*c.IZ`
(the ZZ and noise terms vanish because `sin 0 = 0`); no InvalidInput error is
raised anywhere. -/
theorem evaluate_empty_no_error (c : HamiltonianCoefficients) :
    measure_expectation_value_with c [] = c.II + 0.1 * c.ZI + 0.1 * c.IZ := by
  unfold measure_expectation_value_with
  norm_num [weighted_index_sum]
  ring

/-- C3: at bond length 0.735 both Gaussian exponents are 0, so the
coefficients are exactly II = -1.0523732, ZZ = 0.39793742,
ZI = IZ = -0.19896871. -/
theorem coefficients_at_equilibrium :
    get_h2_hamiltonian_simplified 0.735 =
      { II := -1.0523732, ZZ := 0.39793742, ZI := -0.19896871, IZ := -0.19896871 } := by
  show calculate_hamiltonian_coefficients 0.735 = _
  unfold calculate_hamiltonian_coefficients
  norm_num

/-- C5: for every bond length `r` the two single-qubit coefficients coincide:
`coefficients(r).ZI = coefficients(r).IZ`. -/
theorem coefficients_ZI_eq_IZ (r : ℝ) :
    (get_h2_hamiltonian_simplified r).ZI = (get_h2_hamiltonian_simplified r).IZ := rfl

/-- The trace bookkeeping invariant maintained by `callback`: the iterations
list is exactly `[1, 2, ..., iteration_count]` and the three history lists
all have length `iteration_count`. -/
def trace_invariant (st : H2VQEState) : Prop :=
  st.history.iterations = List.range' 1 st.iteration_count ∧
  st.history.energies.length = st.iteration_count ∧
  st.history.params.length = st.iteration_count

theorem trace_invariant_init (bl : ℝ) : trace_invariant (H2VQE_init bl) :=
  ⟨rfl, rfl, rfl⟩

theorem trace_invariant_callback (st : H2VQEState) (xk : List ℝ)
    (h : trace_invariant st) : trace_invariant (callback st xk) := by
  obtain ⟨h1, h2, h3⟩ := h
  refine ⟨?_, ?_, ?_⟩
  · simp [callback, h1, List.range'_concat]
    omega
  · simp [callback, h2]
  · simp [callback, h3]

theorem trace_invariant_foldl (pts : List (List ℝ)) (st : H2VQEState)
    (h : trace_invariant st) : trace_invariant (pts.foldl callback st) := by
  induction pts generalizing st with
  | nil => exact h
  | cons x xs ih => exact ih _ (trace_invariant_callback st x h)

theorem foldl_callback_count (pts : List (List ℝ)) (st : H2VQEState) :
    (pts.foldl callback st).iteration_count = st.iteration_count + pts.length := by
  induction pts generalizing st with
  | nil => rfl
  | cons x xs ih =>
      show (xs.foldl callback (callback st x)).iteration_count = _
      rw [ih]
      simp [callback]
      omega

/-- C4: after a run of `optimize` on a fresh instance with any sequence of
callback invocations (a completed or an interrupted run alike), the recorded
iteration numbers are exactly `1, 2, ..., k` where `k` is the instance's
iteration count, that count equals the number of callback invocations, and
the energies, params and iterations histories all have length `k`. -/
theorem optimize_trace_iterations (bl : ℝ) (pts : List (List ℝ)) (fv : ℝ)
    (xv : List ℝ) :
    (optimize (H2VQE_init bl) pts fv xv).history.iterations =
        List.range' 1 (optimize (H2VQE_init bl) pts fv xv).iteration_count ∧
      (optimize (H2VQE_init bl) pts fv xv).iteration_count = pts.length ∧
      (optimize (H2VQE_init bl) pts fv xv).history.energies.length =
        (optimize (H2VQE_init bl) pts fv xv).iteration_count ∧
      (optimize (H2VQE_init bl) pts fv xv).history.params.length =
        (optimize (H2VQE_init bl) pts fv xv).iteration_count := by
  have hinv := trace_invariant_foldl pts (H2VQE_init bl) (trace_invariant_init bl)
  obtain ⟨h1, h2, h3⟩ := hinv
  have hcount := foldl_callback_count pts (H2VQE_init bl)
  have hcount' : (pts.foldl callback (H2VQE_init bl)).iteration_count = pts.length := by
    rw [hcount]
    show 0 + pts.length = pts.length
    omega
  exact ⟨h1, hcount', h2, h3⟩

theorem energy_curve_loop_fst (st : H2VQEState) (bls : List ℝ) :
    (energy_curve_loop st bls).1 =
      bls.map (fun r => measure_expectation_value r (List.replicate 8 0.5)) := by
  induction bls generalizing st with
  | nil => rfl
  | cons r rest ih => simp [energy_curve_loop, ih]

/-- C7: `get_energy_curve` returns the input bond-length list unchanged and a
parallel energies list of the same length, whose i-th entry is the direct
evaluation at the fixed vector of eight copies of 0.5 with the coefficients of
the i-th bond length. -/
theorem get_energy_curve_shape (st : H2VQEState) (bls : List ℝ) :
    (get_energy_curve st bls).1.1 = bls ∧
      (get_energy_curve st bls).1.2 =
        bls.map (fun r => measure_expectation_value r (List.replicate 8 0.5)) ∧
      (get_energy_curve st bls).1.1.length = bls.length ∧
      (get_energy_curve st bls).1.2.length = bls.length := by
  have h := energy_curve_loop_fst st bls
  refine ⟨rfl, ?_, rfl, ?_⟩ <;> simp [get_energy_curve, h]

theorem energy_curve_loop_bond_length (bls : List ℝ) (st : H2VQEState)
    (h : bls ≠ []) :
    (energy_curve_loop st bls).2.bond_length = bls.getLast h := by
  induction bls generalizing st with
  | nil => exact absurd rfl h
  | cons r rest ih =>
      cases rest with
      | nil => rfl
      | cons r' rest' =>
          have hstep : (energy_curve_loop st (r :: r' :: rest')).2 =
              (energy_curve_loop { st with bond_length := r } (r' :: rest')).2 := rfl
          rw [hstep, List.getLast_cons (by simp)]
          exact ih _ (by simp)

/-- C8: after a scan over a non-empty bond-length list, the instance's stored
bond length equals the last element of the scanned sequence. -/
theorem get_energy_curve_mutates_bond_length (st : H2VQEState) (bls : List ℝ)
    (h : bls ≠ []) :
    (get_energy_curve st bls).2.bond_length = bls.getLast h :=
  energy_curve_loop_bond_length bls st h

theorem get_energy_curve_mutates_bond_length_witness :
    (([1, 2] : List ℝ) ≠ []) ∧
      (get_energy_curve (H2VQE_init 0.735) [1, 2]).2.bond_length = 2 := by
  refine ⟨by simp, ?_⟩
  have h := get_energy_curve_mutates_bond_length (H2VQE_init 0.735) [1, 2] (by simp)
  simpa using h

/-- C10: for every bond length `r`, `0 < ZZ(r) ≤ 0.39793742` with equality
exactly at `r = 0.735`, `-0.19896871 ≤ ZI(r) < 0` with equality exactly at
`r = 0.735`, `ZI(r) = IZ(r)`, and `II(r)` is the constant `-1.0523732`. -/
theorem coefficients_bounds (r : ℝ) :
    0 < (calculate_hamiltonian_coefficients r).ZZ ∧
      (calculate_hamiltonian_coefficients r).ZZ ≤ 0.39793742 ∧
      ((calculate_hamiltonian_coefficients r).ZZ = 0.39793742 ↔ r = 0.735) ∧
      -0.19896871 ≤ (calculate_hamiltonian_coefficients r).ZI ∧
      (calculate_hamiltonian_coefficients r).ZI < 0 ∧
      ((calculate_hamiltonian_coefficients r).ZI = -0.19896871 ↔ r = 0.735) ∧
      (calculate_hamiltonian_coefficients r).ZI =
        (calculate_hamiltonian_coefficients r).IZ ∧
      (calculate_hamiltonian_coefficients r).II = -1.0523732 := by
  have hc : calculate_hamiltonian_coefficients r =
      { II := -1.0523732
        ZZ := 0.39793742 * Real.exp (-0.1 * (r - 0.735) ^ 2)
        ZI := -0.39793742 * 0.5 * Real.exp (-0.05 * (r - 0.735) ^ 2)
        IZ := -0.39793742 * 0.5 * Real.exp (-0.05 * (r - 0.735) ^ 2) } := rfl
  rw [hc]
  dsimp only
  have hsq : (0 : ℝ) ≤ (r - 0.735) ^ 2 := sq_nonneg _
  have hzz_nonpos : -0.1 * (r - 0.735) ^ 2 ≤ 0 := by nlinarith
  have hzi_nonpos : -0.05 * (r - 0.735) ^ 2 ≤ 0 := by nlinarith
  have hzz_le : Real.exp (-0.1 * (r - 0.735) ^ 2) ≤ 1 :=
    Real.exp_le_one_iff.mpr hzz_nonpos
  have hzi_le : Real.exp (-0.05 * (r - 0.735) ^ 2) ≤ 1 :=
    Real.exp_le_one_iff.mpr hzi_nonpos
  have hzz_pos : 0 < Real.exp (-0.1 * (r - 0.735) ^ 2) := Real.exp_pos _
  have hzi_pos : 0 < Real.exp (-0.05 * (r - 0.735) ^ 2) := Real.exp_pos _
  have key : ∀ a : ℝ, a ≠ 0 →
      (Real.exp (a * (r - 0.735) ^ 2) = 1 ↔ r = 0.735) := by
    intro a ha
    rw [Real.exp_eq_one_iff, mul_eq_zero, pow_eq_zero_iff (n := 2) (by norm_num),
      sub_eq_zero]
    simp [ha]
  refine ⟨?_, ?_, ?_, ?_, ?_, ?_, rfl, rfl⟩
  · positivity
  · nlinarith
  · rw [← key (-0.1) (by norm_num)]
    constructor
    · intro h; nlinarith
    · intro h
      rw [h]
      ring
  · nlinarith
  · nlinarith
  · rw [← key (-0.05) (by norm_num)]
    constructor
    · intro h; nlinarith
    · intro h
      rw [h]
      ring

end VQE
